import Mathlib

/-!
# micromdm: bootstrap command orchestration and the `apply` HTTP transport

A shallow embedding of `dep_hardcode.go` (the orchestrator that drives the
fixed bootstrap command batch and the delayed push) and of
`platform/api/server/apply/transport_http.go` (request and response
encoders and decoders), followed by the properties proved about them.

Conventions of the embedding
* a Go `string` is a Lean `String`; a Go `[]byte` and the content of an
  `io.Reader` are lists of bytes (`Bytes`);
* a Go `error` result is an `Option GoError`, `none` being `nil`;
* calls to collaborators (command service, push service, loggers, the
  goroutine scheduler) are recorded, in program order, in a trace of
  `Effect`s carried by the `World`;
* the command service is an arbitrary deterministic state machine: its
  answer to a call may depend on every call it has seen before.
-/

namespace Micromdm

/-- Content of a Go byte slice. -/
abbrev Bytes := List UInt8

/-- Go `error` values: fresh errors made by `errors.New`, package-level
error variables (compared by identity, hence named), and errors wrapped
with a message by `errors.Wrap`. -/
inductive GoError where
  | new (msg : String)
  | var (name : String) (msg : String)
  | wrap (cause : GoError) (msg : String)
  deriving DecidableEq, Repr

/-- The method `Error()` of a Go error. -/
def GoError.Error : GoError → String
  | .new msg => msg
  | .var _ msg => msg
  | .wrap cause msg => msg ++ ": " ++ cause.Error

/-! ## dep_hardcode.go -/

/-- The struct `mdm.InstallProfile`. -/
structure mdm.InstallProfile where
  Payload : Bytes := []
  deriving DecidableEq, Repr

/-- The fields of `mdm.CommandRequest` that `hardcodeList` sets; a field
left out of a composite literal holds its zero value. -/
structure mdm.CommandRequest where
  RequestType : String := ""
  UDID : String := ""
  Queries : List String := []
  InstallProfile : mdm.InstallProfile := {}
  deriving DecidableEq, Repr

/-- The text of the raw string literal assigned to `debugProfile`. -/
def debugProfileText : String :=
"<?xml version=\"1.0\" encoding=\"UTF-8\"?>
<!DOCTYPE plist PUBLIC \"-//Apple//DTD PLIST 1.0//EN\" \"http://www.apple.com/DTDs/PropertyList-1.0.dtd\">
<plist version=\"1.0\">
<dict>
\t<key>PayloadContent</key>
\t<array>
\t\t<dict>
\t\t\t<key>PayloadDisplayName</key>
\t\t\t<string>ManagedClient logging</string>
\t\t\t<key>PayloadEnabled</key>
\t\t\t<true/>
\t\t\t<key>PayloadIdentifier</key>
\t\t\t<string>com.apple.logging.ManagedClient.1</string>
\t\t\t<key>PayloadType</key>
\t\t\t<string>com.apple.system.logging</string>
\t\t\t<key>PayloadUUID</key>
\t\t\t<string>ED5DE307-A5FC-434F-AD88-187677F02222</string>
\t\t\t<key>PayloadVersion</key>
\t\t\t<integer>1</integer>
\t\t\t<key>Subsystems</key>
\t\t\t<dict>
\t\t\t\t<key>com.apple.ManagedClient</key>
\t\t\t\t<dict>
\t\t\t\t\t<key>DEFAULT-OPTIONS</key>
\t\t\t\t\t<dict>
\t\t\t\t\t\t<key>Default-Privacy-Setting</key>
\t\t\t\t\t\t<string>Public</string>
\t\t\t\t\t\t<key>Level</key>
\t\t\t\t\t\t<dict>
\t\t\t\t\t\t\t<key>Enable</key>
\t\t\t\t\t\t\t<string>debug</string>
\t\t\t\t\t\t\t<key>Persist</key>
\t\t\t\t\t\t\t<string>debug</string>
\t\t\t\t\t\t</dict>
\t\t\t\t\t</dict>
\t\t\t\t</dict>
\t\t\t</dict>
\t\t</dict>
\t\t<dict>
\t\t\t<key>PayloadDisplayName</key>
\t\t\t<string>MDM debug mode</string>
\t\t\t<key>PayloadType</key>
\t\t\t<string>com.apple.mdmclient</string>
\t\t\t<key>EnableDebug</key>
\t\t\t<true/>
\t\t\t<key>PayloadIdentifier</key>
\t\t\t<string>com.apple.logging.ManagedClient.3</string>
\t\t\t<key>PayloadUUID</key>
\t\t\t<string>3EFF8784-7AE1-43E0-A2BA-6B77BBA54341</string>
\t\t\t<key>PayloadVersion</key>
\t\t\t<integer>1</integer>
\t\t</dict>
\t\t<dict>
\t\t\t<key>PayloadDisplayName</key>
\t\t\t<string>ALR debug mode</string>
\t\t\t<key>PayloadType</key>
\t\t\t<string>com.apple.mcx.alr</string>
\t\t\t<key>EnableDebug</key>
\t\t\t<true/>
\t\t\t<key>PayloadIdentifier</key>
\t\t\t<string>com.apple.logging.ManagedClient.4</string>
\t\t\t<key>PayloadUUID</key>
\t\t\t<string>126C9C6B-AE28-4EA6-9BDB-FBB058A291B8</string>
\t\t\t<key>PayloadVersion</key>
\t\t\t<integer>1</integer>
\t\t</dict>
\t</array>
\t<key>PayloadDescription</key>
\t<string>Enables ManagedClient debug mode and logging</string>
\t<key>PayloadDisplayName</key>
\t<string>MCX debug mode and logging</string>
\t<key>PayloadIdentifier</key>
\t<string>com.apple.logging.ManagedClient</string>
\t<key>PayloadRemovalDisallowed</key>
\t<false/>
\t<key>PayloadScope</key>
\t<string>System</string>
\t<key>PayloadType</key>
\t<string>Configuration</string>
\t<key>PayloadUUID</key>
\t<string>D30C25BD-E0C1-44C8-830A-964F27DAD4BA</string>
\t<key>PayloadVersion</key>
\t<integer>1</integer>
</dict>
</plist>"

/-- The package variable `debugProfile`: the bytes of its literal. -/
def debugProfile : Bytes := debugProfileText.toUTF8.data.toList

/-- One statement of the body of a spawned goroutine. -/
inductive Stmt where
  | Sleep (d : Nat)
  | Push (udid : String)
  deriving DecidableEq, Repr

/-- The calls the orchestrator makes on its collaborators. -/
inductive Effect where
  | NewCommand (r : mdm.CommandRequest)
  | fmtPrintln (err : GoError)
  | logPrintln (err : GoError)
  | go (body : List Stmt)
  deriving DecidableEq, Repr

/-- The interface `command.Service`, as a state machine over `σ`: a call
of `NewCommand` moves the service to a new state and returns its error
(the payload it also returns is dropped by every caller here). -/
structure command.Service (σ : Type) where
  NewCommand : σ → mdm.CommandRequest → σ × Option GoError

/-- What the orchestrator runs in: the state of the command service and
the calls made so far, oldest first. -/
structure World (σ : Type) where
  svc : σ
  trace : List Effect

/-- The slice `requests` built by `hardcodeList`. -/
def hardcodeList.requests (udid : String) : List mdm.CommandRequest :=
  let devInfo : mdm.CommandRequest :=
    { RequestType := "DeviceInformation", UDID := udid, Queries := ["UDID"] }
  let devConfigured : mdm.CommandRequest :=
    { RequestType := "DeviceConfigured", UDID := udid }
  let installProfile : mdm.CommandRequest :=
    { RequestType := "InstallProfile", UDID := udid,
      InstallProfile := { Payload := debugProfile } }
  [devInfo, installProfile, devConfigured]

/-- The loop `for _, r := range requests` of `hardcodeList`: each request
is submitted in turn, and the first error ends the function. -/
def hardcodeList.range {σ : Type} (svc : command.Service σ) :
    List mdm.CommandRequest → World σ → World σ × Option GoError
  | [], w => (w, none)
  | r :: rest, w =>
    match svc.NewCommand w.svc r with
    | (s, some err) => ({ svc := s, trace := w.trace ++ [Effect.NewCommand r] }, some err)
    | (s, none) =>
      hardcodeList.range svc rest { svc := s, trace := w.trace ++ [Effect.NewCommand r] }

/-- The function `hardcodeList`. -/
def hardcodeList {σ : Type} (svc : command.Service σ) (udid : String)
    (w : World σ) : World σ × Option GoError :=
  hardcodeList.range svc (hardcodeList.requests udid) w

/-- The struct `checkin.Command`, reduced to the field the orchestrator reads. -/
structure checkin.Command where
  UDID : String
  deriving DecidableEq, Repr

/-- The struct `checkin.Event`, reduced to the field the orchestrator reads. -/
structure checkin.Event where
  Command : checkin.Command
  deriving DecidableEq, Repr

/-- The constant `time.Second`, in nanoseconds, the unit of `time.Duration`. -/
def time.Second : Nat := 1000000000

/-- The body of the goroutine spawned for a device:
`time.Sleep(10 * time.Second); pushsvc.Push(ctx, udid)`. -/
def hardcodeCommands.pushTask (udid : String) : List Stmt :=
  [Stmt.Sleep (10 * time.Second), Stmt.Push udid]

/-- One pass through the body of the `for`/`select` loop of
`hardcodeCommands`, for the received message `message`. The decoder
`checkin.UnmarshalEvent` belongs to another module and is a parameter. -/
def hardcodeCommands.iteration {σ : Type}
    (UnmarshalEvent : Bytes → Except GoError checkin.Event)
    (cmdsvc : command.Service σ) (message : Bytes) (w : World σ) : World σ :=
  match UnmarshalEvent message with
  | .error err => { w with trace := w.trace ++ [Effect.fmtPrintln err] }
  | .ok ev =>
    match hardcodeList cmdsvc ev.Command.UDID w with
    | (w1, some err) => { w1 with trace := w1.trace ++ [Effect.logPrintln err] }
    | (w1, none) =>
      { w1 with trace := w1.trace ++ [Effect.go (hardcodeCommands.pushTask ev.Command.UDID)] }

/-- The loop of `hardcodeCommands` run on the messages the subscription
delivers, in order of delivery; when they are exhausted the loop waits. -/
def hardcodeCommands.loop {σ : Type}
    (UnmarshalEvent : Bytes → Except GoError checkin.Event)
    (cmdsvc : command.Service σ) : List Bytes → World σ → World σ
  | [], w => w
  | message :: rest, w =>
    hardcodeCommands.loop UnmarshalEvent cmdsvc rest
      (hardcodeCommands.iteration UnmarshalEvent cmdsvc message w)

/-- A goroutine body run on an explicit clock from the instant `now`:
`Sleep d` resumes the goroutine `d` nanoseconds later, and every other
statement takes no time. The result lists the calls of the push service,
each with the instant at which it is made. -/
def Stmt.run : Nat → List Stmt → List (Nat × String)
  | _, [] => []
  | now, Stmt.Sleep d :: rest => Stmt.run (now + d) rest
  | now, Stmt.Push udid :: rest => (now, udid) :: Stmt.run now rest

/-! ### Observations used to state the properties -/

/-- The errors the service would return to the requests `rs`, submitted
one after the other from the state `s`. -/
def command.Service.answers {σ : Type} (svc : command.Service σ) :
    σ → List mdm.CommandRequest → List (Option GoError)
  | _, [] => []
  | s, r :: rest => (svc.NewCommand s r).2 :: svc.answers (svc.NewCommand s r).1 rest

/-- The requests submitted in a trace, in order. -/
def Effect.submissions : List Effect → List mdm.CommandRequest
  | [] => []
  | Effect.NewCommand r :: rest => r :: Effect.submissions rest
  | _ :: rest => Effect.submissions rest

/-- The goroutines spawned in a trace, in order. -/
def Effect.spawned : List Effect → List (List Stmt)
  | [] => []
  | Effect.go body :: rest => body :: Effect.spawned rest
  | _ :: rest => Effect.spawned rest

/-- The calls made between the world `w` and a later world `w1`. -/
def World.since {σ : Type} (w w1 : World σ) : List Effect :=
  w1.trace.drop w.trace.length

/-- The calls each message of the feed gave rise to, message by message,
together with the world the loop ends in. -/
def hardcodeCommands.history {σ : Type}
    (UnmarshalEvent : Bytes → Except GoError checkin.Event)
    (cmdsvc : command.Service σ) : List Bytes → World σ → List (Bytes × List Effect)
  | [], _ => []
  | message :: rest, w =>
    (message, w.since (hardcodeCommands.iteration UnmarshalEvent cmdsvc message w)) ::
      hardcodeCommands.history UnmarshalEvent cmdsvc rest
        (hardcodeCommands.iteration UnmarshalEvent cmdsvc message w)

/-- A message of the history ended in a push task. -/
def hardcodeCommands.pushed (entry : Bytes × List Effect) : Bool :=
  !(Effect.spawned entry.2).isEmpty

/-- The messages of the feed that a run from `w` neither failed to decode
nor failed to submit: the feed with its failing messages taken out. -/
def hardcodeCommands.survivors {σ : Type}
    (UnmarshalEvent : Bytes → Except GoError checkin.Event)
    (cmdsvc : command.Service σ) (messages : List Bytes) (w : World σ) : List Bytes :=
  ((hardcodeCommands.history UnmarshalEvent cmdsvc messages w).filter
    hardcodeCommands.pushed).map Prod.fst

/-- The later messages of a run are handled as they would be, had the
failing messages (those that ended in no push task) not been in the feed:
the run on the feed without them yields, message for message, the calls
that the surviving messages gave rise to in the run on the whole feed. -/
def hardcodeCommands.UnaffectedByFailures {σ : Type}
    (UnmarshalEvent : Bytes → Except GoError checkin.Event)
    (cmdsvc : command.Service σ) (messages : List Bytes) (w : World σ) : Prop :=
  hardcodeCommands.history UnmarshalEvent cmdsvc
      (hardcodeCommands.survivors UnmarshalEvent cmdsvc messages w) w =
    (hardcodeCommands.history UnmarshalEvent cmdsvc messages w).filter hardcodeCommands.pushed

/-- The answer of the service to a request does not depend on the calls
it received before. -/
def command.Service.stateless {σ : Type} (svc : command.Service σ) : Prop :=
  ∀ (s s1 : σ) (r : mdm.CommandRequest), (svc.NewCommand s r).2 = (svc.NewCommand s1 r).2

/-- The message decodes. -/
def decodes (UnmarshalEvent : Bytes → Except GoError checkin.Event) (message : Bytes) : Bool :=
  match UnmarshalEvent message with
  | .ok _ => true
  | .error _ => false

/-! ## platform/api/server/apply/transport_http.go -/

/-- An `io.Reader`: the bytes it yields, then the error that ends the
stream (`none` for `io.EOF`, the regular end). -/
structure io.Reader where
  data : Bytes
  err : Option GoError := none
  deriving DecidableEq, Repr

/-- The call `io.Copy(dst, src)`: the bytes that reach `dst` and the error
returned, which is `nil` when the reader ends regularly. -/
def io.Copy (src : io.Reader) : Bytes × Option GoError :=
  (src.data, src.err)

/-- The struct `blockDeviceRequest` (declared in another file of the
package), as this file uses it. -/
structure blockDeviceRequest where
  UDID : String
  deriving DecidableEq, Repr

/-- The struct `appUploadRequest` (declared in another file of the
package), as this file uses it; a `nil` reader is `none`. -/
structure appUploadRequest where
  ManifestName : String
  ManifestFile : Option io.Reader
  PKGFilename : String
  PKGFile : Option io.Reader
  deriving DecidableEq, Repr

/-- One part of a multipart body: a form field written by `WriteField`, or
a file part opened by `CreateFormFile` and filled with bytes. -/
inductive multipart.Part where
  | field (name : String) (value : String)
  | file (name : String) (filename : String) (data : Bytes)
  deriving DecidableEq, Repr

/-- The form name of a part. -/
def multipart.Part.FormName : multipart.Part → String
  | .field name _ => name
  | .file name _ _ => name

/-- A parsed `Content-Type` header value. -/
structure mime.MediaType where
  mediatype : String
  boundary : Option String
  deriving DecidableEq, Repr

/-- The body of a request: none, a multipart document with its boundary
and parts, or other content. -/
inductive http.Body where
  | nil
  | multipart (boundary : String) (parts : List multipart.Part)
  | other (data : Bytes)
  deriving DecidableEq, Repr

/-- The components of `*http.Request` that the transport reads or writes:
method, `URL.Path`, the values of the URL query, the `Content-Type`
header, the body, and the route variables that `mux.Vars` returns. -/
structure http.Request where
  Method : String
  Path : String
  Query : List (String × String)
  ContentType : Option mime.MediaType
  Body : http.Body
  Vars : List (String × String)
  deriving DecidableEq, Repr

/-- Values of type `interface{}` returned by the decoders. -/
inductive Value where
  | nil
  | int (n : Int)
  | blockDeviceRequest (req : blockDeviceRequest)
  | appUploadRequest (req : appUploadRequest)
  deriving DecidableEq, Repr

/-- The function `decodeBlockDeviceRequest`. -/
def decodeBlockDeviceRequest (r : http.Request) : Value × Option GoError :=
  let errBadRoute := GoError.new "bad route"
  let vars := r.Vars
  match vars.lookup "udid" with
  | none => (Value.int 0, some errBadRoute)
  | some udid => (Value.blockDeviceRequest { UDID := udid }, none)

/-- The variable `http.ErrMissingFile`. -/
def http.ErrMissingFile : GoError :=
  GoError.var "http.ErrMissingFile" "http: no such file"

/-- The variable `http.ErrNotMultipart`. -/
def http.ErrNotMultipart : GoError :=
  GoError.var "http.ErrNotMultipart" "request Content-Type isn't multipart/form-data"

/-- The variable `http.ErrMissingBoundary`. -/
def http.ErrMissingBoundary : GoError :=
  GoError.var "http.ErrMissingBoundary" "no multipart boundary param in Content-Type"

/-- The struct `multipart.Form`: the values and the files of a parsed
body, each list in the order of the parts. -/
structure multipart.Form where
  Value : List (String × String)
  File : List (String × Bytes)
  deriving DecidableEq, Repr

/-- The conversion `string(b)` of bytes, one character for each byte. -/
def goString (b : Bytes) : String :=
  String.mk (b.map (fun c => Char.ofNat c.toNat))

/-- The method `ReadForm` of a multipart reader: a part without a form
name is skipped, a part without a file name is a value, and any other
part is a file. -/
def multipart.ReadForm : List multipart.Part → multipart.Form
  | [] => { Value := [], File := [] }
  | multipart.Part.field name value :: rest =>
    let f := multipart.ReadForm rest
    if name = "" then f else { f with Value := (name, value) :: f.Value }
  | multipart.Part.file name filename data :: rest =>
    let f := multipart.ReadForm rest
    if name = "" then f
    else if filename = "" then { f with Value := (name, goString data) :: f.Value }
    else { f with File := (name, data) :: f.File }

/-- The method `ParseMultipartForm` of a request, as a function of the
request: the header must announce `multipart/form-data` with a boundary,
and the body must be a multipart document with that boundary. -/
def http.Request.ParseMultipartForm (r : http.Request) : Except GoError multipart.Form :=
  match r.ContentType with
  | none => .error http.ErrNotMultipart
  | some ct =>
    if ct.mediatype ≠ "multipart/form-data" then .error http.ErrNotMultipart
    else
      match ct.boundary with
      | none => .error http.ErrMissingBoundary
      | some b =>
        match r.Body with
        | http.Body.nil => .error (GoError.new "missing form body")
        | http.Body.other _ => .error (GoError.new "multipart: NextPart: EOF")
        | http.Body.multipart b1 parts =>
          if b = b1 then .ok (multipart.ReadForm parts)
          else .error (GoError.new "multipart: NextPart: EOF")

/-- The method `FormValue`: the first value of `key` in `r.Form`, where
the values of the URL query come before those of the multipart body, and
the empty string when there is none. A failure to parse the body is
ignored. -/
def http.Request.FormValue (r : http.Request) (key : String) : String :=
  let form :=
    match r.ParseMultipartForm with
    | .ok f => r.Query ++ f.Value
    | .error _ => r.Query
  match form.lookup key with
  | some v => v
  | none => ""

/-- The method `FormFile`: the first file of `key` in the multipart form,
`http.ErrMissingFile` when there is none, and the parse error when the
body cannot be parsed. -/
def http.Request.FormFile (r : http.Request) (key : String) : Option io.Reader × Option GoError :=
  match r.ParseMultipartForm with
  | .error err => (none, some err)
  | .ok f =>
    match f.File.lookup key with
    | some data => (some { data := data, err := none }, none)
    | none => (none, some http.ErrMissingFile)

/-- The function `decodeAppUploadRequest`. -/
def decodeAppUploadRequest (r : http.Request) : Value × Option GoError :=
  let appManifestFilename := r.FormValue "app_manifest_filename"
  match r.FormFile "app_manifest_filedata" with
  | (manifestFile, err) =>
    if err ≠ none ∧ err ≠ some http.ErrMissingFile then
      (Value.nil, err.map (fun e => GoError.wrap e "manifest file"))
    else
      let pkgFilename := r.FormValue "pkg_name"
      match r.FormFile "pkg_filedata" with
      | (pkgFile, err) =>
        if err ≠ none ∧ err ≠ some http.ErrMissingFile then
          (Value.nil, err)
        else
          (Value.appUploadRequest
            { ManifestName := appManifestFilename,
              ManifestFile := manifestFile,
              PKGFilename := pkgFilename,
              PKGFile := pkgFile }, none)

/-- The value of `writer.FormDataContentType()` for a writer whose
boundary is `boundary`. -/
def multipart.FormDataContentType (boundary : String) : mime.MediaType :=
  { mediatype := "multipart/form-data", boundary := some boundary }

/-- One of the two guarded blocks of `EncodeUploadAppRequest`: when `name`
is not empty, a file part `filedata` named `name` receives the copy of
`file`, then the field `namefield` receives `name`. The result is the
parts written and the error returned, or `none` when the copy
dereferences a `nil` reader. Creating a part in a writer over a
`bytes.Buffer` does not fail. -/
def EncodeUploadAppRequest.block (filedata namefield wrapmsg : String)
    (name : String) (file : Option io.Reader) (written : List multipart.Part) :
    Option (List multipart.Part × Option GoError) :=
  if name ≠ "" then
    match file with
    | none => none
    | some src =>
      match io.Copy src with
      | (data, some err) =>
        some (written ++ [multipart.Part.file filedata name data],
          some (GoError.wrap err wrapmsg))
      | (data, none) =>
        some (written ++ [multipart.Part.file filedata name data,
          multipart.Part.field namefield name], none)
  else some (written, none)

/-- The function `EncodeUploadAppRequest`. The boundary that
`multipart.NewWriter` draws at random is the parameter `boundary`. The
result is the request after the call and the error returned, or `none`
when the call panics on a `nil` reader. -/
def EncodeUploadAppRequest (boundary : String) (r : http.Request)
    (req : appUploadRequest) : Option (http.Request × Option GoError) :=
  match EncodeUploadAppRequest.block "app_manifest_filedata" "app_manifest_filename"
      "copying appmanifest file to multipart writer" req.ManifestName req.ManifestFile [] with
  | none => none
  | some (_, some err) => some (r, some err)
  | some (parts1, none) =>
    match EncodeUploadAppRequest.block "pkg_filedata" "pkg_name"
        "copying pkg file to multipart writer" req.PKGFilename req.PKGFile parts1 with
    | none => none
    | some (_, some err) => some (r, some err)
    | some (parts2, none) =>
      some ({ r with
                ContentType := some (multipart.FormDataContentType boundary),
                Body := http.Body.multipart boundary parts2 }, none)

/-- The parts of the body of a request, when it is a multipart document. -/
def http.Request.parts (r : http.Request) : List multipart.Part :=
  match r.Body with
  | http.Body.multipart _ parts => parts
  | _ => []

/-- JSON documents, as far as the error responses need them. -/
inductive JSON where
  | null
  | string (s : String)
  | object (members : List (String × JSON))

/-- The struct `errorWrapper`. -/
structure errorWrapper where
  Error : String
  deriving DecidableEq, Repr

/-- The JSON encoding of an `errorWrapper`, directed by the tag
`json:"error"` of its only field. -/
def errorWrapper.MarshalJSON (w : errorWrapper) : JSON :=
  JSON.object [("error", JSON.string w.Error)]

/-- The calls made on an `http.ResponseWriter`: `WriteHeader(code)`, and
the `Write` of one JSON document by an encoder whose indentation was set
by `SetIndent(pre, ind)`. -/
inductive http.ResponseWriter.Call where
  | WriteHeader (code : Nat)
  | WriteJSON (pre : String) (ind : String) (doc : JSON)

/-- An `http.ResponseWriter`, as the calls made on it, oldest first. -/
abbrev http.ResponseWriter := List http.ResponseWriter.Call

/-- The constant `http.StatusInternalServerError`. -/
def http.StatusInternalServerError : Nat := 500

/-- The constant `http.StatusOK`. -/
def http.StatusOK : Nat := 200

/-- The status line a server sends for the calls made on a writer: the
code of the first `WriteHeader` when it comes before any `Write`, 200 when
a `Write` comes first, and none while nothing has been written. -/
def http.ResponseWriter.status : http.ResponseWriter → Option Nat
  | [] => none
  | http.ResponseWriter.Call.WriteHeader code :: _ => some code
  | http.ResponseWriter.Call.WriteJSON _ _ _ :: _ => some http.StatusOK

/-- The documents written to the body, in order. -/
def http.ResponseWriter.body : http.ResponseWriter → List JSON
  | [] => []
  | http.ResponseWriter.Call.WriteHeader _ :: rest => http.ResponseWriter.body rest
  | http.ResponseWriter.Call.WriteJSON _ _ doc :: rest => doc :: http.ResponseWriter.body rest

/-- The function `EncodeError`. -/
def EncodeError (err : GoError) (w : http.ResponseWriter) : http.ResponseWriter :=
  let w1 := w ++ [http.ResponseWriter.Call.WriteHeader http.StatusInternalServerError]
  w1 ++ [http.ResponseWriter.Call.WriteJSON "" " "
    (errorWrapper.MarshalJSON { Error := err.Error })]

/-- A response value handed to `encodeResponse`: whether its type
implements the interface `errorer` and, if so, what its method `error()`
returns; and what the JSON encoder makes of the value. -/
structure Response where
  errorer : Option (Option GoError)
  Marshal : Except GoError JSON

/-- The function `encodeResponse`. -/
def encodeResponse (w : http.ResponseWriter) (response : Response) :
    http.ResponseWriter × Option GoError :=
  match response.errorer with
  | some (some err) => (EncodeError err w, none)
  | _ =>
    match response.Marshal with
    | .ok doc => (w ++ [http.ResponseWriter.Call.WriteJSON "" " " doc], none)
    | .error err => (w, some err)

/-- The test `shouldEscape(c, encodeQueryComponent)` of `net/url`: every
byte is escaped but the ASCII letters and digits and `-`, `_`, `.`, `~`. -/
def url.shouldEscape (c : Nat) : Bool :=
  !((97 ≤ c && c ≤ 122) || (65 ≤ c && c ≤ 90) || (48 ≤ c && c ≤ 57) ||
    c = 45 || c = 95 || c = 46 || c = 126)

/-- The digit of `n` in the table `upperhex` of `net/url`. -/
def url.upperhex (n : Nat) : Char :=
  "0123456789ABCDEF".get ⟨n⟩

/-- The escaping of one byte by `url.QueryEscape`: kept when it need not
be escaped, `+` for a space, and `%` with two hexadecimal digits
otherwise. -/
def url.escapeByte (c : UInt8) : List Char :=
  if url.shouldEscape c.toNat then
    if c.toNat = 32 then ['+']
    else ['%', url.upperhex (c.toNat / 16), url.upperhex (c.toNat % 16)]
  else [Char.ofNat c.toNat]

/-- The function `url.QueryEscape`, applied to the bytes of the string. -/
def url.QueryEscape (s : String) : String :=
  String.mk (s.toUTF8.data.toList.flatMap url.escapeByte)

/-- The function `encodeBlockDeviceRequest`. -/
def encodeBlockDeviceRequest (r : http.Request) (req : blockDeviceRequest) :
    http.Request × Option GoError :=
  let udid := url.QueryEscape req.UDID
  ({ r with Method := "POST", Path := "/v1/devices/" ++ udid ++ "/block" }, none)

/-- The characters that `url.QueryEscape` leaves as they are. -/
def url.unreserved (c : Char) : Bool :=
  !url.shouldEscape c.toNat

end Micromdm

namespace Micromdm

/-! ## Sample collaborators -/

/-- A command service that counts the calls it receives and accepts all
of them. -/
def sample.accepting : command.Service Nat :=
  { NewCommand := fun s _ => (s + 1, none) }

/-- A command service that counts the calls it receives and refuses the
one numbered `k` (the first call is numbered 0), accepting the others. -/
def sample.refusing (k : Nat) : command.Service Nat :=
  { NewCommand := fun s _ =>
      (s + 1, if s = k then some (GoError.new "service unavailable") else none) }

/-- A decoder of messages: the empty message is malformed, and any other
message is an event of the device its bytes spell. -/
def sample.UnmarshalEvent (message : Bytes) : Except GoError checkin.Event :=
  if message = [] then .error (GoError.new "unexpected EOF")
  else .ok { Command := { UDID := goString message } }

/-- A command service that counts the calls it receives and refuses the
requests for the device `udid`, whatever came before. -/
def sample.blocking (udid : String) : command.Service Nat :=
  { NewCommand := fun s r =>
      (s + 1, if r.UDID = udid then some (GoError.new "device blocked") else none) }

/-- An outgoing request as a client makes it before the encoder runs. -/
def sample.request : http.Request :=
  { Method := "GET", Path := "/", Query := [], ContentType := none,
    Body := http.Body.nil, Vars := [] }

/-- The world before anything has happened, the service having seen no call. -/
def sample.start : World Nat :=
  { svc := 0, trace := [] }

end Micromdm

namespace Micromdm

/-! ## Properties of `hardcodeList` -/

theorem hardcodeList.range_ok {σ : Type} (svc : command.Service σ) :
    ∀ (rs : List mdm.CommandRequest) (w : World σ),
      (∀ a ∈ svc.answers w.svc rs, a = none) →
      (hardcodeList.range svc rs w).2 = none ∧
      (hardcodeList.range svc rs w).1.trace = w.trace ++ rs.map Effect.NewCommand := by
  intro rs
  induction rs with
  | nil => intro w _; simp [hardcodeList.range]
  | cons r rest ih =>
    intro w h
    have h0 : (svc.NewCommand w.svc r).2 = none :=
      h _ (by simp [command.Service.answers])
    have hrest : ∀ a ∈ svc.answers (svc.NewCommand w.svc r).1 rest, a = none := by
      intro a ha
      exact h a (by simp [command.Service.answers, ha])
    rcases hcall : svc.NewCommand w.svc r with ⟨s, e⟩
    rw [hcall] at h0 hrest
    simp only at h0 hrest
    subst h0
    have := ih { svc := s, trace := w.trace ++ [Effect.NewCommand r] } hrest
    simp only [hardcodeList.range, hcall]
    simpa using this

theorem hardcodeList.range_fail {σ : Type} (svc : command.Service σ) :
    ∀ (rs : List mdm.CommandRequest) (w : World σ) (k : Nat) (err : GoError),
      (∀ a ∈ (svc.answers w.svc rs).take k, a = none) →
      (svc.answers w.svc rs)[k]? = some (some err) →
      (hardcodeList.range svc rs w).2 = some err ∧
      (hardcodeList.range svc rs w).1.trace =
        w.trace ++ (rs.take (k + 1)).map Effect.NewCommand := by
  intro rs
  induction rs with
  | nil => intro w k err _ h; simp [command.Service.answers] at h
  | cons r rest ih =>
    intro w k err hpre hk
    rcases hcall : svc.NewCommand w.svc r with ⟨s, e⟩
    cases k with
    | zero =>
      simp [command.Service.answers, hcall] at hk
      subst hk
      simp [hardcodeList.range, hcall]
    | succ k =>
      have h0 : e = none := by
        have := hpre (svc.NewCommand w.svc r).2 (by simp [command.Service.answers])
        simpa [hcall] using this
      subst h0
      have hpre1 : ∀ a ∈ (svc.answers s rest).take k, a = none := by
        intro a ha
        exact hpre a (by simp [command.Service.answers, hcall, ha])
      have hk1 : (svc.answers s rest)[k]? = some (some err) := by
        simpa [command.Service.answers, hcall] using hk
      have := ih { svc := s, trace := w.trace ++ [Effect.NewCommand r] } k err hpre1 hk1
      simp only [hardcodeList.range, hcall]
      simpa using this

theorem hardcodeList.range_none {σ : Type} (svc : command.Service σ) :
    ∀ (rs : List mdm.CommandRequest) (w : World σ),
      (hardcodeList.range svc rs w).2 = none →
      ∀ a ∈ svc.answers w.svc rs, a = none := by
  intro rs
  induction rs with
  | nil => intro w _ a ha; simp [command.Service.answers] at ha
  | cons r rest ih =>
    intro w h a ha
    rcases hcall : svc.NewCommand w.svc r with ⟨s, e⟩
    cases e with
    | some err => simp [hardcodeList.range, hcall] at h
    | none =>
      simp only [hardcodeList.range, hcall] at h
      have := ih _ h
      simp only [command.Service.answers, hcall, List.mem_cons] at ha
      rcases ha with ha | ha
      · exact ha
      · exact this a ha

theorem hardcodeList.range_trace {σ : Type} (svc : command.Service σ) :
    ∀ (rs : List mdm.CommandRequest) (w : World σ),
      ∃ n, (hardcodeList.range svc rs w).1.trace =
        w.trace ++ (rs.take n).map Effect.NewCommand := by
  intro rs
  induction rs with
  | nil => intro w; exact ⟨0, by simp [hardcodeList.range]⟩
  | cons r rest ih =>
    intro w
    rcases hcall : svc.NewCommand w.svc r with ⟨s, e⟩
    cases e with
    | some err => exact ⟨1, by simp [hardcodeList.range, hcall]⟩
    | none =>
      obtain ⟨n, hn⟩ := ih { svc := s, trace := w.trace ++ [Effect.NewCommand r] }
      refine ⟨n + 1, ?_⟩
      simp only [hardcodeList.range, hcall]
      simpa using hn

theorem Effect.spawned_append (a b : List Effect) :
    Effect.spawned (a ++ b) = Effect.spawned a ++ Effect.spawned b := by
  induction a with
  | nil => rfl
  | cons e rest ih => cases e <;> simp [Effect.spawned, ih]

theorem Effect.submissions_append (a b : List Effect) :
    Effect.submissions (a ++ b) = Effect.submissions a ++ Effect.submissions b := by
  induction a with
  | nil => rfl
  | cons e rest ih => cases e <;> simp [Effect.submissions, ih]

theorem Effect.spawned_map_NewCommand (rs : List mdm.CommandRequest) :
    Effect.spawned (rs.map Effect.NewCommand) = [] := by
  induction rs with
  | nil => rfl
  | cons r rest ih => simpa [Effect.spawned] using ih

theorem Effect.submissions_map_NewCommand (rs : List mdm.CommandRequest) :
    Effect.submissions (rs.map Effect.NewCommand) = rs := by
  induction rs with
  | nil => rfl
  | cons r rest ih => simpa [Effect.submissions] using ih

theorem World.since_append {σ : Type} (w w1 : World σ) (t : List Effect)
    (h : w1.trace = w.trace ++ t) : w.since w1 = t := by
  simp [World.since, h]

/-- C1: when the service accepts each of the three calls, `hardcodeList`
returns no error and has submitted exactly three requests, in this order:
`DeviceInformation`, `InstallProfile` carrying `debugProfile` as payload,
`DeviceConfigured`, each for the device `udid`. -/
theorem hardcodeList_submits_batch {σ : Type} (svc : command.Service σ) (udid : String)
    (w : World σ)
    (h : ∀ a ∈ svc.answers w.svc (hardcodeList.requests udid), a = none) :
    (hardcodeList svc udid w).2 = none ∧
    (hardcodeList svc udid w).1.trace = w.trace ++
      [Effect.NewCommand { RequestType := "DeviceInformation", UDID := udid, Queries := ["UDID"] },
       Effect.NewCommand { RequestType := "InstallProfile", UDID := udid,
                           InstallProfile := { Payload := debugProfile } },
       Effect.NewCommand { RequestType := "DeviceConfigured", UDID := udid }] ∧
    (Effect.submissions (w.since (hardcodeList svc udid w).1)).length = 3 := by
  have := hardcodeList.range_ok svc (hardcodeList.requests udid) w h
  have ht : (hardcodeList svc udid w).1.trace = w.trace ++
      (hardcodeList.requests udid).map Effect.NewCommand := this.2
  refine ⟨this.1, ?_, ?_⟩
  · simpa [hardcodeList.requests] using ht
  · rw [World.since_append w _ _ ht, Effect.submissions_map_NewCommand]
    simp [hardcodeList.requests]

theorem hardcodeList_submits_batch_witness :
    (hardcodeList sample.accepting "C02XK0AAJG5H" sample.start).2 = none ∧
    (hardcodeList sample.accepting "C02XK0AAJG5H" sample.start).1.trace = sample.start.trace ++
      [Effect.NewCommand { RequestType := "DeviceInformation", UDID := "C02XK0AAJG5H",
                           Queries := ["UDID"] },
       Effect.NewCommand { RequestType := "InstallProfile", UDID := "C02XK0AAJG5H",
                           InstallProfile := { Payload := debugProfile } },
       Effect.NewCommand { RequestType := "DeviceConfigured", UDID := "C02XK0AAJG5H" }] ∧
    (Effect.submissions (sample.start.since
      (hardcodeList sample.accepting "C02XK0AAJG5H" sample.start).1)).length = 3 :=
  hardcodeList_submits_batch sample.accepting "C02XK0AAJG5H" sample.start
    (by intro a ha
        simp [hardcodeList.requests, command.Service.answers, sample.accepting] at ha
        exact ha)

/-- C2: when the first call the service refuses is the one at position
`i` (counting from 1, with `i` at most 3), `hardcodeList` returns the error
of that call, and the requests it has submitted are the first `i` requests
of the batch, each once: nothing after position `i` is submitted. -/
theorem hardcodeList_first_failure {σ : Type} (svc : command.Service σ) (udid : String)
    (w : World σ) (i : Nat) (err : GoError) (hi : 1 ≤ i ∧ i ≤ 3)
    (hpre : ∀ a ∈ (svc.answers w.svc (hardcodeList.requests udid)).take (i - 1), a = none)
    (hfail : (svc.answers w.svc (hardcodeList.requests udid))[i - 1]? = some (some err)) :
    (hardcodeList svc udid w).2 = some err ∧
    (hardcodeList svc udid w).1.trace = w.trace ++
      ((hardcodeList.requests udid).take i).map Effect.NewCommand ∧
    Effect.submissions (w.since (hardcodeList svc udid w).1) =
      ([{ RequestType := "DeviceInformation", UDID := udid, Queries := ["UDID"] },
        { RequestType := "InstallProfile", UDID := udid,
          InstallProfile := { Payload := debugProfile } },
        { RequestType := "DeviceConfigured", UDID := udid }] : List mdm.CommandRequest).take i := by
  have := hardcodeList.range_fail svc (hardcodeList.requests udid) w (i - 1) err hpre hfail
  have hi1 : i - 1 + 1 = i := by omega
  rw [hi1] at this
  have ht : (hardcodeList svc udid w).1.trace = w.trace ++
      ((hardcodeList.requests udid).take i).map Effect.NewCommand := this.2
  refine ⟨this.1, ht, ?_⟩
  rw [World.since_append w _ _ ht, Effect.submissions_map_NewCommand]
  rfl

theorem hardcodeList_first_failure_witness :
    (hardcodeList (sample.refusing 1) "C02XK0AAJG5H" sample.start).2 =
      some (GoError.new "service unavailable") ∧
    (hardcodeList (sample.refusing 1) "C02XK0AAJG5H" sample.start).1.trace = sample.start.trace ++
      ((hardcodeList.requests "C02XK0AAJG5H").take 2).map Effect.NewCommand ∧
    Effect.submissions (sample.start.since
        (hardcodeList (sample.refusing 1) "C02XK0AAJG5H" sample.start).1) =
      ([{ RequestType := "DeviceInformation", UDID := "C02XK0AAJG5H", Queries := ["UDID"] },
        { RequestType := "InstallProfile", UDID := "C02XK0AAJG5H",
          InstallProfile := { Payload := debugProfile } },
        { RequestType := "DeviceConfigured", UDID := "C02XK0AAJG5H" }] :
          List mdm.CommandRequest).take 2 :=
  hardcodeList_first_failure (sample.refusing 1) "C02XK0AAJG5H" sample.start 2
    (GoError.new "service unavailable") (by decide)
    (by intro a ha
        simp [hardcodeList.requests, command.Service.answers, sample.refusing, sample.start] at ha
        exact ha)
    (by simp [hardcodeList.requests, command.Service.answers, sample.refusing, sample.start])

/-! ## Properties of one pass of the orchestrator loop -/

theorem hardcodeCommands.iteration_undecoded {σ : Type}
    (UnmarshalEvent : Bytes → Except GoError checkin.Event) (cmdsvc : command.Service σ)
    (message : Bytes) (w : World σ) (err : GoError)
    (h : UnmarshalEvent message = .error err) :
    hardcodeCommands.iteration UnmarshalEvent cmdsvc message w =
      { svc := w.svc, trace := w.trace ++ [Effect.fmtPrintln err] } := by
  simp [hardcodeCommands.iteration, h]

theorem hardcodeCommands.iteration_accepted {σ : Type}
    (UnmarshalEvent : Bytes → Except GoError checkin.Event) (cmdsvc : command.Service σ)
    (message : Bytes) (w : World σ) (ev : checkin.Event)
    (h : UnmarshalEvent message = .ok ev)
    (hok : ∀ a ∈ cmdsvc.answers w.svc (hardcodeList.requests ev.Command.UDID), a = none) :
    (hardcodeCommands.iteration UnmarshalEvent cmdsvc message w).trace =
      w.trace ++ ((hardcodeList.requests ev.Command.UDID).map Effect.NewCommand ++
        [Effect.go (hardcodeCommands.pushTask ev.Command.UDID)]) := by
  have hr := hardcodeList.range_ok cmdsvc (hardcodeList.requests ev.Command.UDID) w hok
  rcases hres : hardcodeList.range cmdsvc (hardcodeList.requests ev.Command.UDID) w with ⟨w1, e⟩
  rw [hres] at hr
  obtain ⟨he, ht⟩ := hr
  simp only at he ht
  subst he
  simp [hardcodeCommands.iteration, h, hardcodeList, hres, ht]

theorem hardcodeCommands.iteration_refused {σ : Type}
    (UnmarshalEvent : Bytes → Except GoError checkin.Event) (cmdsvc : command.Service σ)
    (message : Bytes) (w : World σ) (ev : checkin.Event)
    (h : UnmarshalEvent message = .ok ev)
    (hbad : ¬ ∀ a ∈ cmdsvc.answers w.svc (hardcodeList.requests ev.Command.UDID), a = none) :
    ∃ n err, (hardcodeCommands.iteration UnmarshalEvent cmdsvc message w).trace =
      w.trace ++ (((hardcodeList.requests ev.Command.UDID).take n).map Effect.NewCommand ++
        [Effect.logPrintln err]) := by
  obtain ⟨n, hn⟩ := hardcodeList.range_trace cmdsvc (hardcodeList.requests ev.Command.UDID) w
  rcases hres : hardcodeList.range cmdsvc (hardcodeList.requests ev.Command.UDID) w with ⟨w1, e⟩
  rw [hres] at hn
  simp only at hn
  cases e with
  | none =>
    exact absurd (hardcodeList.range_none cmdsvc _ w (by rw [hres])) hbad
  | some err =>
    exact ⟨n, err, by simp [hardcodeCommands.iteration, h, hardcodeList, hres, hn]⟩

/-- C3: in one pass of the loop a push task is spawned exactly when the
message decodes and the service accepts the three submissions for its
device. When it is spawned, the calls of the pass are the three
submissions followed by the spawning of one task, which is the task of the
decoded device: sleep, then push to `ev.Command.UDID`. When the message
does not decode or a submission is refused, nothing is spawned. -/
theorem hardcodeCommands_push_iff {σ : Type}
    (UnmarshalEvent : Bytes → Except GoError checkin.Event) (cmdsvc : command.Service σ)
    (message : Bytes) (w : World σ) :
    (Effect.spawned (w.since (hardcodeCommands.iteration UnmarshalEvent cmdsvc message w)) ≠ [] ↔
      ∃ ev, UnmarshalEvent message = .ok ev ∧
        ∀ a ∈ cmdsvc.answers w.svc (hardcodeList.requests ev.Command.UDID), a = none) ∧
    (∀ ev, UnmarshalEvent message = .ok ev →
      (∀ a ∈ cmdsvc.answers w.svc (hardcodeList.requests ev.Command.UDID), a = none) →
      w.since (hardcodeCommands.iteration UnmarshalEvent cmdsvc message w) =
        (hardcodeList.requests ev.Command.UDID).map Effect.NewCommand ++
          [Effect.go [Stmt.Sleep (10 * time.Second), Stmt.Push ev.Command.UDID]] ∧
      Effect.spawned (w.since (hardcodeCommands.iteration UnmarshalEvent cmdsvc message w)) =
        [[Stmt.Sleep (10 * time.Second), Stmt.Push ev.Command.UDID]]) ∧
    ((¬ ∃ ev, UnmarshalEvent message = .ok ev ∧
        ∀ a ∈ cmdsvc.answers w.svc (hardcodeList.requests ev.Command.UDID), a = none) →
      Effect.spawned (w.since (hardcodeCommands.iteration UnmarshalEvent cmdsvc message w)) = []) := by
  have key : ∀ ev, UnmarshalEvent message = .ok ev →
      (∀ a ∈ cmdsvc.answers w.svc (hardcodeList.requests ev.Command.UDID), a = none) →
      w.since (hardcodeCommands.iteration UnmarshalEvent cmdsvc message w) =
        (hardcodeList.requests ev.Command.UDID).map Effect.NewCommand ++
          [Effect.go [Stmt.Sleep (10 * time.Second), Stmt.Push ev.Command.UDID]] := by
    intro ev h hok
    exact World.since_append w _ _
      (hardcodeCommands.iteration_accepted UnmarshalEvent cmdsvc message w ev h hok)
  have none_spawned : (¬ ∃ ev, UnmarshalEvent message = .ok ev ∧
        ∀ a ∈ cmdsvc.answers w.svc (hardcodeList.requests ev.Command.UDID), a = none) →
      Effect.spawned (w.since (hardcodeCommands.iteration UnmarshalEvent cmdsvc message w)) = [] := by
    intro hno
    cases h : UnmarshalEvent message with
    | error err =>
      rw [hardcodeCommands.iteration_undecoded UnmarshalEvent cmdsvc message w err h]
      rw [World.since_append w _ [Effect.fmtPrintln err] rfl]
      rfl
    | ok ev =>
      have hbad : ¬ ∀ a ∈ cmdsvc.answers w.svc (hardcodeList.requests ev.Command.UDID),
          a = none := fun hall => hno ⟨ev, h, hall⟩
      obtain ⟨n, err, ht⟩ :=
        hardcodeCommands.iteration_refused UnmarshalEvent cmdsvc message w ev h hbad
      rw [World.since_append w _ _ ht, Effect.spawned_append, Effect.spawned_map_NewCommand]
      rfl
  refine ⟨⟨?_, ?_⟩, ?_, none_spawned⟩
  · intro hne
    by_contra hno
    exact hne (none_spawned hno)
  · rintro ⟨ev, h, hok⟩
    rw [key ev h hok, Effect.spawned_append, Effect.spawned_map_NewCommand]
    simp [Effect.spawned]
  · intro ev h hok
    refine ⟨key ev h hok, ?_⟩
    rw [key ev h hok, Effect.spawned_append, Effect.spawned_map_NewCommand]
    rfl

theorem hardcodeCommands_push_iff_witness :
    sample.UnmarshalEvent [66] = .ok { Command := { UDID := "B" } } ∧
    sample.start.since
        (hardcodeCommands.iteration sample.UnmarshalEvent sample.accepting [66] sample.start) =
      (hardcodeList.requests "B").map Effect.NewCommand ++
        [Effect.go [Stmt.Sleep (10 * time.Second), Stmt.Push "B"]] :=
  ⟨rfl,
   ((hardcodeCommands_push_iff sample.UnmarshalEvent sample.accepting [66] sample.start).2.1
      { Command := { UDID := "B" } } rfl
      (by intro a ha
          simp [hardcodeList.requests, command.Service.answers, sample.accepting] at ha
          exact ha)).1⟩

/-- C9: for an event whose three submissions are accepted, exactly one
task is spawned, and on an explicit clock a task spawned at the instant
`spawnedAt` calls the push service once, for the device of the event, at
`spawnedAt` plus 10 seconds (10000000000 ns, whatever the device and the
event) and makes no call before that instant. -/
theorem hardcodeCommands_push_delay {σ : Type}
    (UnmarshalEvent : Bytes → Except GoError checkin.Event) (cmdsvc : command.Service σ)
    (message : Bytes) (w : World σ) (ev : checkin.Event) (spawnedAt : Nat)
    (h : UnmarshalEvent message = .ok ev)
    (hok : ∀ a ∈ cmdsvc.answers w.svc (hardcodeList.requests ev.Command.UDID), a = none) :
    (Effect.spawned (w.since (hardcodeCommands.iteration UnmarshalEvent cmdsvc message w))).map
        (Stmt.run spawnedAt) = [[(spawnedAt + 10000000000, ev.Command.UDID)]] ∧
    (∀ body ∈ Effect.spawned
        (w.since (hardcodeCommands.iteration UnmarshalEvent cmdsvc message w)),
      ∀ call ∈ Stmt.run spawnedAt body,
        call.1 = spawnedAt + 10 * time.Second ∧ ¬ call.1 < spawnedAt + 10 * time.Second) := by
  have ht := World.since_append w _ _
    (hardcodeCommands.iteration_accepted UnmarshalEvent cmdsvc message w ev h hok)
  have hs : Effect.spawned
      (w.since (hardcodeCommands.iteration UnmarshalEvent cmdsvc message w)) =
      [hardcodeCommands.pushTask ev.Command.UDID] := by
    rw [ht, Effect.spawned_append, Effect.spawned_map_NewCommand]
    rfl
  rw [hs]
  constructor
  · simp [hardcodeCommands.pushTask, Stmt.run, time.Second]
  · intro body hb call hc
    simp only [List.mem_singleton] at hb
    subst hb
    simp [hardcodeCommands.pushTask, Stmt.run] at hc
    subst hc
    simp

theorem hardcodeCommands_push_delay_witness :
    (Effect.spawned (sample.start.since
        (hardcodeCommands.iteration sample.UnmarshalEvent sample.accepting [66]
          sample.start))).map (Stmt.run 5000) = [[(5000 + 10000000000, "B")]] :=
  (hardcodeCommands_push_delay sample.UnmarshalEvent sample.accepting [66] sample.start
      { Command := { UDID := "B" } } 5000 rfl
      (by intro a ha
          simp [hardcodeList.requests, command.Service.answers, sample.accepting] at ha
          exact ha)).1

/-! ## Properties of the orchestrator loop -/

theorem hardcodeList.range_frame {σ : Type} (svc : command.Service σ) :
    ∀ (rs : List mdm.CommandRequest) (w : World σ),
      hardcodeList.range svc rs w =
        ({ svc := (hardcodeList.range svc rs { svc := w.svc, trace := [] }).1.svc,
           trace := w.trace ++ (hardcodeList.range svc rs { svc := w.svc, trace := [] }).1.trace },
         (hardcodeList.range svc rs { svc := w.svc, trace := [] }).2) := by
  intro rs
  induction rs with
  | nil => intro w; simp [hardcodeList.range]
  | cons r rest ih =>
    intro w
    rcases hcall : svc.NewCommand w.svc r with ⟨s, e⟩
    cases e with
    | some err => simp [hardcodeList.range, hcall]
    | none =>
      simp only [hardcodeList.range, hcall]
      rw [ih { svc := s, trace := w.trace ++ [Effect.NewCommand r] },
        ih { svc := s, trace := [] ++ [Effect.NewCommand r] }]
      simp

theorem hardcodeCommands.iteration_frame {σ : Type}
    (UnmarshalEvent : Bytes → Except GoError checkin.Event) (cmdsvc : command.Service σ)
    (message : Bytes) (w : World σ) :
    hardcodeCommands.iteration UnmarshalEvent cmdsvc message w =
      { svc := (hardcodeCommands.iteration UnmarshalEvent cmdsvc message
          { svc := w.svc, trace := [] }).svc,
        trace := w.trace ++ (hardcodeCommands.iteration UnmarshalEvent cmdsvc message
          { svc := w.svc, trace := [] }).trace } := by
  cases h : UnmarshalEvent message with
  | error err => simp [hardcodeCommands.iteration, h]
  | ok ev =>
    have hf := hardcodeList.range_frame cmdsvc (hardcodeList.requests ev.Command.UDID) w
    rcases hres : hardcodeList.range cmdsvc (hardcodeList.requests ev.Command.UDID)
      { svc := w.svc, trace := [] } with ⟨w1, e⟩
    rw [hres] at hf
    cases e <;> simp [hardcodeCommands.iteration, h, hardcodeList, hres, hf]

theorem hardcodeCommands.iteration_since {σ : Type}
    (UnmarshalEvent : Bytes → Except GoError checkin.Event) (cmdsvc : command.Service σ)
    (message : Bytes) (w : World σ) :
    w.since (hardcodeCommands.iteration UnmarshalEvent cmdsvc message w) =
      (hardcodeCommands.iteration UnmarshalEvent cmdsvc message
        { svc := w.svc, trace := [] }).trace := by
  apply World.since_append
  rw [hardcodeCommands.iteration_frame]

theorem hardcodeCommands.iteration_svc {σ : Type}
    (UnmarshalEvent : Bytes → Except GoError checkin.Event) (cmdsvc : command.Service σ)
    (message : Bytes) (w : World σ) :
    (hardcodeCommands.iteration UnmarshalEvent cmdsvc message w).svc =
      (hardcodeCommands.iteration UnmarshalEvent cmdsvc message
        { svc := w.svc, trace := [] }).svc := by
  rw [hardcodeCommands.iteration_frame]

theorem hardcodeCommands.iteration_trace {σ : Type}
    (UnmarshalEvent : Bytes → Except GoError checkin.Event) (cmdsvc : command.Service σ)
    (message : Bytes) (w : World σ) :
    (hardcodeCommands.iteration UnmarshalEvent cmdsvc message w).trace =
      w.trace ++ w.since (hardcodeCommands.iteration UnmarshalEvent cmdsvc message w) := by
  rw [hardcodeCommands.iteration_since]
  have hf := hardcodeCommands.iteration_frame UnmarshalEvent cmdsvc message w
  exact congrArg World.trace hf

theorem hardcodeCommands.history_frame {σ : Type}
    (UnmarshalEvent : Bytes → Except GoError checkin.Event) (cmdsvc : command.Service σ) :
    ∀ (messages : List Bytes) (w w1 : World σ), w.svc = w1.svc →
      hardcodeCommands.history UnmarshalEvent cmdsvc messages w =
        hardcodeCommands.history UnmarshalEvent cmdsvc messages w1 := by
  intro messages
  induction messages with
  | nil => intro w w1 _; rfl
  | cons m rest ih =>
    intro w w1 hsvc
    simp only [hardcodeCommands.history]
    rw [hardcodeCommands.iteration_since UnmarshalEvent cmdsvc m w,
      hardcodeCommands.iteration_since UnmarshalEvent cmdsvc m w1, hsvc]
    congr 1
    apply ih
    rw [hardcodeCommands.iteration_svc UnmarshalEvent cmdsvc m w,
      hardcodeCommands.iteration_svc UnmarshalEvent cmdsvc m w1, hsvc]

theorem hardcodeCommands.loop_trace {σ : Type}
    (UnmarshalEvent : Bytes → Except GoError checkin.Event) (cmdsvc : command.Service σ) :
    ∀ (messages : List Bytes) (w : World σ),
      (hardcodeCommands.loop UnmarshalEvent cmdsvc messages w).trace =
        w.trace ++ (hardcodeCommands.history UnmarshalEvent cmdsvc messages w).flatMap Prod.snd := by
  intro messages
  induction messages with
  | nil => intro w; simp [hardcodeCommands.loop, hardcodeCommands.history]
  | cons m rest ih =>
    intro w
    simp only [hardcodeCommands.loop, hardcodeCommands.history, List.flatMap_cons]
    rw [ih, hardcodeCommands.iteration_trace UnmarshalEvent cmdsvc m w]
    simp

theorem hardcodeCommands.history_fst {σ : Type}
    (UnmarshalEvent : Bytes → Except GoError checkin.Event) (cmdsvc : command.Service σ) :
    ∀ (messages : List Bytes) (w : World σ),
      (hardcodeCommands.history UnmarshalEvent cmdsvc messages w).map Prod.fst = messages := by
  intro messages
  induction messages with
  | nil => intro w; rfl
  | cons m rest ih => intro w; simp [hardcodeCommands.history, ih]

theorem hardcodeList.range_stateless {σ : Type} (svc : command.Service σ)
    (hs : svc.stateless) :
    ∀ (rs : List mdm.CommandRequest) (s s1 : σ),
      (hardcodeList.range svc rs { svc := s, trace := [] }).2 =
        (hardcodeList.range svc rs { svc := s1, trace := [] }).2 ∧
      (hardcodeList.range svc rs { svc := s, trace := [] }).1.trace =
        (hardcodeList.range svc rs { svc := s1, trace := [] }).1.trace := by
  intro rs
  induction rs with
  | nil => intro s s1; simp [hardcodeList.range]
  | cons r rest ih =>
    intro s s1
    have he := hs s s1 r
    rcases hcall : svc.NewCommand s r with ⟨t, e⟩
    rcases hcall1 : svc.NewCommand s1 r with ⟨t1, e1⟩
    rw [hcall, hcall1] at he
    simp only at he
    subst he
    cases e with
    | some err => simp [hardcodeList.range, hcall, hcall1]
    | none =>
      simp only [hardcodeList.range, hcall, hcall1]
      rw [hardcodeList.range_frame svc rest { svc := t, trace := [] ++ [Effect.NewCommand r] },
        hardcodeList.range_frame svc rest { svc := t1, trace := [] ++ [Effect.NewCommand r] }]
      simp only
      exact ⟨(ih t t1).1, by rw [(ih t t1).2]⟩

theorem hardcodeCommands.iteration_stateless {σ : Type}
    (UnmarshalEvent : Bytes → Except GoError checkin.Event) (cmdsvc : command.Service σ)
    (hs : cmdsvc.stateless) (message : Bytes) (s s1 : σ) :
    (hardcodeCommands.iteration UnmarshalEvent cmdsvc message { svc := s, trace := [] }).trace =
      (hardcodeCommands.iteration UnmarshalEvent cmdsvc message { svc := s1, trace := [] }).trace := by
  cases h : UnmarshalEvent message with
  | error err => simp [hardcodeCommands.iteration, h]
  | ok ev =>
    have hr := hardcodeList.range_stateless cmdsvc hs (hardcodeList.requests ev.Command.UDID) s s1
    rcases hres : hardcodeList.range cmdsvc (hardcodeList.requests ev.Command.UDID)
      { svc := s, trace := [] } with ⟨w1, e⟩
    rcases hres1 : hardcodeList.range cmdsvc (hardcodeList.requests ev.Command.UDID)
      { svc := s1, trace := [] } with ⟨w2, e2⟩
    rw [hres, hres1] at hr
    obtain ⟨he, ht⟩ := hr
    simp only at he ht
    subst he
    cases e <;> simp [hardcodeCommands.iteration, h, hardcodeList, hres, hres1, ht]

theorem hardcodeCommands.history_stateless {σ : Type}
    (UnmarshalEvent : Bytes → Except GoError checkin.Event) (cmdsvc : command.Service σ)
    (hs : cmdsvc.stateless) :
    ∀ (messages : List Bytes) (w w1 : World σ),
      hardcodeCommands.history UnmarshalEvent cmdsvc messages w =
        hardcodeCommands.history UnmarshalEvent cmdsvc messages w1 := by
  intro messages
  induction messages with
  | nil => intro w w1; rfl
  | cons m rest ih =>
    intro w w1
    simp only [hardcodeCommands.history]
    rw [hardcodeCommands.iteration_since UnmarshalEvent cmdsvc m w,
      hardcodeCommands.iteration_since UnmarshalEvent cmdsvc m w1,
      hardcodeCommands.iteration_stateless UnmarshalEvent cmdsvc hs m w.svc w1.svc]
    congr 1
    apply ih

theorem hardcodeCommands.unaffected_of_stateless {σ : Type}
    (UnmarshalEvent : Bytes → Except GoError checkin.Event) (cmdsvc : command.Service σ)
    (hs : cmdsvc.stateless) :
    ∀ (messages : List Bytes) (w : World σ),
      hardcodeCommands.UnaffectedByFailures UnmarshalEvent cmdsvc messages w := by
  intro messages
  induction messages with
  | nil => intro w; rfl
  | cons m rest ih =>
    intro w
    have ih1 := ih (hardcodeCommands.iteration UnmarshalEvent cmdsvc m w)
    unfold hardcodeCommands.UnaffectedByFailures hardcodeCommands.survivors at ih1 ⊢
    simp only [hardcodeCommands.history]
    by_cases hp : hardcodeCommands.pushed
        (m, w.since (hardcodeCommands.iteration UnmarshalEvent cmdsvc m w)) = true
    · rw [List.filter_cons_of_pos hp]
      simp only [List.map_cons, hardcodeCommands.history]
      rw [ih1]
    · rw [List.filter_cons_of_neg hp]
      rw [hardcodeCommands.history_stateless UnmarshalEvent cmdsvc hs _ w
        (hardcodeCommands.iteration UnmarshalEvent cmdsvc m w)]
      exact ih1

theorem hardcodeCommands.history_filter_decodes {σ : Type}
    (UnmarshalEvent : Bytes → Except GoError checkin.Event) (cmdsvc : command.Service σ) :
    ∀ (messages : List Bytes) (w : World σ),
      hardcodeCommands.history UnmarshalEvent cmdsvc
          (messages.filter (decodes UnmarshalEvent)) w =
        (hardcodeCommands.history UnmarshalEvent cmdsvc messages w).filter
          (fun entry => decodes UnmarshalEvent entry.1) := by
  intro messages
  induction messages with
  | nil => intro w; rfl
  | cons m rest ih =>
    intro w
    simp only [hardcodeCommands.history]
    cases h : UnmarshalEvent m with
    | ok ev =>
      have hd : decodes UnmarshalEvent m = true := by simp [decodes, h]
      rw [List.filter_cons_of_pos hd, List.filter_cons_of_pos (by simpa using hd)]
      simp only [hardcodeCommands.history]
      rw [ih]
    | error err =>
      have hd : ¬ decodes UnmarshalEvent m = true := by simp [decodes, h]
      rw [List.filter_cons_of_neg hd, List.filter_cons_of_neg (by simpa using hd)]
      rw [← ih]
      apply hardcodeCommands.history_frame
      rw [hardcodeCommands.iteration_undecoded UnmarshalEvent cmdsvc m w err h]

/-- C4, as stated, fails for a service whose answers depend on the calls
made before: with a service that refuses its first call only, the feed of
a message for device `A` then one for device `B` loses `A` (its first
submission is refused) and ends in a push task for `B`; had the failing
message not been in the feed, the message for `B` would have met the
refusal and ended in no push task. -/
theorem hardcodeCommands_failures_affect_later :
    hardcodeCommands.survivors sample.UnmarshalEvent (sample.refusing 0) [[65], [66]]
      sample.start = [[66]] ∧
    Effect.spawned (sample.start.since (hardcodeCommands.loop sample.UnmarshalEvent
      (sample.refusing 0) [[65], [66]] sample.start)) = [hardcodeCommands.pushTask "B"] ∧
    Effect.spawned (sample.start.since (hardcodeCommands.loop sample.UnmarshalEvent
      (sample.refusing 0) [[66]] sample.start)) = [] ∧
    ¬ hardcodeCommands.UnaffectedByFailures sample.UnmarshalEvent (sample.refusing 0)
      [[65], [66]] sample.start := by
  refine ⟨by decide, by decide, by decide, ?_⟩
  unfold hardcodeCommands.UnaffectedByFailures
  decide

/-- C4, amended: the loop processes every message of a finite feed, its
calls being those of the successive passes, one for each message. A
message that fails to decode causes one `fmt.Println` and nothing else (no
submission, no push, the command service untouched) and the loop goes on;
a message whose batch is refused causes no push and the loop goes on. The
messages that decode are handled exactly as they would be had the
undecodable messages not been in the feed. When the answer of the service
to a request does not depend on the calls made before, the messages that
end in a push are also handled exactly as they would be had all the
failing messages not been in the feed. In particular, after an
undecodable message, a message that decodes has its three commands
submitted by a service that accepts every call. -/
theorem hardcodeCommands_loop_continues {σ : Type}
    (UnmarshalEvent : Bytes → Except GoError checkin.Event) (cmdsvc : command.Service σ)
    (messages : List Bytes) (w : World σ) :
    ((hardcodeCommands.loop UnmarshalEvent cmdsvc messages w).trace = w.trace ++
        (hardcodeCommands.history UnmarshalEvent cmdsvc messages w).flatMap Prod.snd ∧
      (hardcodeCommands.history UnmarshalEvent cmdsvc messages w).map Prod.fst = messages) ∧
    (∀ (pre rest : List Bytes) (m : Bytes), messages = pre ++ m :: rest →
      hardcodeCommands.loop UnmarshalEvent cmdsvc messages w =
        hardcodeCommands.loop UnmarshalEvent cmdsvc rest
          (hardcodeCommands.iteration UnmarshalEvent cmdsvc m
            (hardcodeCommands.loop UnmarshalEvent cmdsvc pre w))) ∧
    (∀ (m : Bytes) (err : GoError) (w1 : World σ), UnmarshalEvent m = .error err →
      hardcodeCommands.iteration UnmarshalEvent cmdsvc m w1 =
        { svc := w1.svc, trace := w1.trace ++ [Effect.fmtPrintln err] }) ∧
    (∀ (m : Bytes) (ev : checkin.Event) (w1 : World σ), UnmarshalEvent m = .ok ev →
      (¬ ∀ a ∈ cmdsvc.answers w1.svc (hardcodeList.requests ev.Command.UDID), a = none) →
      Effect.spawned
        (w1.since (hardcodeCommands.iteration UnmarshalEvent cmdsvc m w1)) = []) ∧
    (hardcodeCommands.history UnmarshalEvent cmdsvc
        (messages.filter (decodes UnmarshalEvent)) w =
      (hardcodeCommands.history UnmarshalEvent cmdsvc messages w).filter
        (fun entry => decodes UnmarshalEvent entry.1)) ∧
    (cmdsvc.stateless →
      hardcodeCommands.UnaffectedByFailures UnmarshalEvent cmdsvc messages w) ∧
    (∀ (bad good : Bytes) (err : GoError) (ev : checkin.Event),
      UnmarshalEvent bad = .error err → UnmarshalEvent good = .ok ev →
      (∀ s r, (cmdsvc.NewCommand s r).2 = none) →
      Effect.submissions
          (w.since (hardcodeCommands.loop UnmarshalEvent cmdsvc [bad, good] w)) =
        hardcodeList.requests ev.Command.UDID) := by
  refine ⟨⟨hardcodeCommands.loop_trace UnmarshalEvent cmdsvc messages w,
      hardcodeCommands.history_fst UnmarshalEvent cmdsvc messages w⟩, ?_,
    fun m err w1 h => hardcodeCommands.iteration_undecoded UnmarshalEvent cmdsvc m w1 err h,
    ?_, hardcodeCommands.history_filter_decodes UnmarshalEvent cmdsvc messages w,
    fun hs => hardcodeCommands.unaffected_of_stateless UnmarshalEvent cmdsvc hs messages w, ?_⟩
  · intro pre rest m hm
    subst hm
    clear * -
    induction pre generalizing w with
    | nil => rfl
    | cons p pre ih => exact ih _
  · intro m ev w1 h hbad
    obtain ⟨n, err, ht⟩ :=
      hardcodeCommands.iteration_refused UnmarshalEvent cmdsvc m w1 ev h hbad
    rw [World.since_append w1 _ _ ht, Effect.spawned_append, Effect.spawned_map_NewCommand]
    rfl
  · intro bad good err ev hbad hgood hacc
    have hall : ∀ (s : σ) (rs : List mdm.CommandRequest), ∀ a ∈ cmdsvc.answers s rs, a = none := by
      intro s rs
      induction rs generalizing s with
      | nil => intro a ha; simp [command.Service.answers] at ha
      | cons r rest ih =>
        intro a ha
        simp only [command.Service.answers, List.mem_cons] at ha
        rcases ha with ha | ha
        · rw [ha]; exact hacc s r
        · exact ih _ a ha
    have h1 := hardcodeCommands.iteration_undecoded UnmarshalEvent cmdsvc bad w err hbad
    have h2 := hardcodeCommands.iteration_accepted UnmarshalEvent cmdsvc good
      { svc := w.svc, trace := w.trace ++ [Effect.fmtPrintln err] } ev hgood (hall _ _)
    have ht : (hardcodeCommands.loop UnmarshalEvent cmdsvc [bad, good] w).trace =
        w.trace ++ ([Effect.fmtPrintln err] ++
          ((hardcodeList.requests ev.Command.UDID).map Effect.NewCommand ++
            [Effect.go (hardcodeCommands.pushTask ev.Command.UDID)])) := by
      simp only [hardcodeCommands.loop, h1, h2]
      simp
    rw [World.since_append w _ _ ht, Effect.submissions_append, Effect.submissions_append,
      Effect.submissions_map_NewCommand]
    simp [Effect.submissions]

theorem hardcodeCommands_loop_continues_witness :
    sample.UnmarshalEvent [] = .error (GoError.new "unexpected EOF") ∧
    sample.UnmarshalEvent [66] = .ok { Command := { UDID := "B" } } ∧
    (∀ s r, (sample.accepting.NewCommand s r).2 = none) ∧
    Effect.submissions (sample.start.since
        (hardcodeCommands.loop sample.UnmarshalEvent sample.accepting [[], [66]]
          sample.start)) = hardcodeList.requests "B" ∧
    (sample.blocking "A").stateless ∧
    hardcodeCommands.UnaffectedByFailures sample.UnmarshalEvent (sample.blocking "A")
      [[65], [], [66]] sample.start :=
  ⟨rfl, rfl, fun _ _ => rfl,
   (hardcodeCommands_loop_continues sample.UnmarshalEvent sample.accepting [[], [66]]
      sample.start).2.2.2.2.2.2 [] [66] (GoError.new "unexpected EOF")
      { Command := { UDID := "B" } } rfl rfl (fun _ _ => rfl),
   fun _ _ _ => rfl,
   (hardcodeCommands_loop_continues sample.UnmarshalEvent (sample.blocking "A")
      [[65], [], [66]] sample.start).2.2.2.2.2.1 (fun _ _ _ => rfl)⟩

/-! ## Properties of the HTTP transport -/

/-- C5: `decodeBlockDeviceRequest` returns the error "bad route", and a
value that is not a `blockDeviceRequest`, exactly when the route variables
have no entry for `udid`; when they have one, empty or not, it returns no
error and the `blockDeviceRequest` whose `UDID` is that entry. -/
theorem decodeBlockDeviceRequest_bad_route (r : http.Request) :
    (((decodeBlockDeviceRequest r).2 = some (GoError.new "bad route") ∧
        ∀ req, (decodeBlockDeviceRequest r).1 ≠ Value.blockDeviceRequest req) ↔
      r.Vars.lookup "udid" = none) ∧
    (r.Vars.lookup "udid" = none →
      decodeBlockDeviceRequest r = (Value.int 0, some (GoError.new "bad route"))) ∧
    (∀ udid, r.Vars.lookup "udid" = some udid →
      decodeBlockDeviceRequest r = (Value.blockDeviceRequest { UDID := udid }, none)) := by
  cases h : r.Vars.lookup "udid" with
  | none => simp [decodeBlockDeviceRequest, h]
  | some udid => simp [decodeBlockDeviceRequest, h]

theorem decodeBlockDeviceRequest_bad_route_witness :
    ({ sample.request with Vars := [("udid", "")] } : http.Request).Vars.lookup "udid" = some "" ∧
    decodeBlockDeviceRequest { sample.request with Vars := [("udid", "")] } =
      (Value.blockDeviceRequest { UDID := "" }, none) ∧
    decodeBlockDeviceRequest sample.request = (Value.int 0, some (GoError.new "bad route")) :=
  ⟨by decide,
   (decodeBlockDeviceRequest_bad_route { sample.request with Vars := [("udid", "")] }).2.2 ""
     (by decide),
   (decodeBlockDeviceRequest_bad_route sample.request).2.1 (by decide)⟩

/-- C6: for an upload request with no manifest name, a package name that
is not empty and a package file that reads to its end, the encoder returns
no error, and the body it sets is the multipart document made of the file
part `pkg_filedata`, with the package name as file name and the bytes of
the package file, followed by the field `pkg_name` holding the package
name; no part of it is named `app_manifest_filedata` or
`app_manifest_filename`. -/
theorem EncodeUploadAppRequest_package_only (boundary : String) (r : http.Request)
    (req : appUploadRequest) (data : Bytes)
    (hM : req.ManifestName = "") (hP : req.PKGFilename ≠ "")
    (hF : req.PKGFile = some { data := data, err := none }) :
    EncodeUploadAppRequest boundary r req =
      some ({ r with
                ContentType := some (multipart.FormDataContentType boundary),
                Body := http.Body.multipart boundary
                  [multipart.Part.file "pkg_filedata" req.PKGFilename data,
                   multipart.Part.field "pkg_name" req.PKGFilename] }, none) ∧
    (∀ r1 err, EncodeUploadAppRequest boundary r req = some (r1, err) →
      err = none ∧
      r1.parts = [multipart.Part.file "pkg_filedata" req.PKGFilename data,
                  multipart.Part.field "pkg_name" req.PKGFilename] ∧
      ∀ part ∈ r1.parts, part.FormName ≠ "app_manifest_filedata" ∧
        part.FormName ≠ "app_manifest_filename") := by
  have hmain : EncodeUploadAppRequest boundary r req =
      some ({ r with
                ContentType := some (multipart.FormDataContentType boundary),
                Body := http.Body.multipart boundary
                  [multipart.Part.file "pkg_filedata" req.PKGFilename data,
                   multipart.Part.field "pkg_name" req.PKGFilename] }, none) := by
    simp [EncodeUploadAppRequest, EncodeUploadAppRequest.block, hM, hP, hF, io.Copy]
  refine ⟨hmain, ?_⟩
  intro r1 err h
  rw [hmain] at h
  simp only [Option.some.injEq, Prod.mk.injEq] at h
  obtain ⟨h1, h2⟩ := h
  subst h1 h2
  refine ⟨rfl, rfl, ?_⟩
  intro part hpart
  simp only [http.Request.parts, List.mem_cons, List.mem_singleton, List.not_mem_nil,
    or_false] at hpart
  rcases hpart with hpart | hpart <;> subst hpart <;>
    simp [multipart.Part.FormName]

theorem EncodeUploadAppRequest_package_only_witness :
    EncodeUploadAppRequest "b0" sample.request
        { ManifestName := "", ManifestFile := none, PKGFilename := "munki.pkg",
          PKGFile := some { data := [1, 2, 3], err := none } } =
      some ({ sample.request with
                ContentType := some (multipart.FormDataContentType "b0"),
                Body := http.Body.multipart "b0"
                  [multipart.Part.file "pkg_filedata" "munki.pkg" [1, 2, 3],
                   multipart.Part.field "pkg_name" "munki.pkg"] }, none) :=
  (EncodeUploadAppRequest_package_only "b0" sample.request
      { ManifestName := "", ManifestFile := none, PKGFilename := "munki.pkg",
        PKGFile := some { data := [1, 2, 3], err := none } } [1, 2, 3]
      rfl (by decide) rfl).1

/-- C7: for every error, `EncodeError` calls `WriteHeader(500)` and then
writes the JSON object whose only member is `error`, holding `err.Error()`,
so that a response sent through a fresh writer has status 500 and that
object as body; and for every response whose `error()` is not nil,
`encodeResponse` makes the same calls and returns nil. -/
theorem EncodeError_always_500 (err : GoError) (w : http.ResponseWriter)
    (response : Response) :
    EncodeError err w = w ++
      [http.ResponseWriter.Call.WriteHeader 500,
       http.ResponseWriter.Call.WriteJSON "" " "
         (JSON.object [("error", JSON.string err.Error)])] ∧
    http.ResponseWriter.status (EncodeError err []) = some 500 ∧
    http.ResponseWriter.body (EncodeError err []) =
      [JSON.object [("error", JSON.string err.Error)]] ∧
    (response.errorer = some (some err) →
      encodeResponse w response = (EncodeError err w, none) ∧
      http.ResponseWriter.status (encodeResponse [] response).1 = some 500 ∧
      http.ResponseWriter.body (encodeResponse [] response).1 =
        [JSON.object [("error", JSON.string err.Error)]]) := by
  refine ⟨?_, ?_, ?_, ?_⟩
  · simp [EncodeError, errorWrapper.MarshalJSON, http.StatusInternalServerError]
  · simp [EncodeError, http.ResponseWriter.status, http.StatusInternalServerError]
  · simp [EncodeError, http.ResponseWriter.body, errorWrapper.MarshalJSON]
  · intro h
    simp [encodeResponse, h, EncodeError, http.ResponseWriter.status,
      http.ResponseWriter.body, errorWrapper.MarshalJSON, http.StatusInternalServerError]

theorem EncodeError_always_500_witness :
    encodeResponse []
        { errorer := some (some (GoError.wrap (GoError.new "no rows") "get device")),
          Marshal := .ok JSON.null } =
      (EncodeError (GoError.wrap (GoError.new "no rows") "get device") [], none) ∧
    http.ResponseWriter.status (EncodeError
      (GoError.wrap (GoError.new "no rows") "get device") []) = some 500 :=
  ⟨((EncodeError_always_500 (GoError.wrap (GoError.new "no rows") "get device") []
      { errorer := some (some (GoError.wrap (GoError.new "no rows") "get device")),
        Marshal := .ok JSON.null }).2.2.2 rfl).1,
   (EncodeError_always_500 (GoError.wrap (GoError.new "no rows") "get device") []
      { errorer := some (some (GoError.wrap (GoError.new "no rows") "get device")),
        Marshal := .ok JSON.null }).2.1⟩

theorem url.escape_unreserved (c : Char) (h : url.unreserved c = true) :
    (String.utf8EncodeChar c).flatMap url.escapeByte = [c] := by
  have hv : c.val.toNat = c.toNat := rfl
  have hc : c.toNat ≤ 126 := by
    simp only [url.unreserved, url.shouldEscape, Bool.not_not, Bool.or_eq_true,
      Bool.and_eq_true, decide_eq_true_eq] at h
    omega
  have hle : c.val ≤ 0x7f := by
    show c.val.toNat ≤ 127
    omega
  have hb : c.val.toUInt8.toNat = c.toNat := by
    simp [UInt32.toUInt8, Nat.toUInt8, UInt8.ofNat, hv]
    omega
  have hs : url.shouldEscape c.toNat = false := by
    simpa [url.unreserved] using h
  simp [String.utf8EncodeChar, hle, url.escapeByte, hb, hs, Char.ofNat_toNat]

theorem url.QueryEscape_unreserved (s : String)
    (h : ∀ c ∈ s.data, url.unreserved c = true) : url.QueryEscape s = s := by
  have hl : ∀ l : List Char, (∀ c ∈ l, url.unreserved c = true) →
      (l.flatMap String.utf8EncodeChar).flatMap url.escapeByte = l := by
    intro l
    induction l with
    | nil => intro _; rfl
    | cons c rest ih =>
      intro hall
      rw [List.flatMap_cons, List.flatMap_append,
        url.escape_unreserved c (hall c (List.mem_cons_self _ _)),
        ih (fun d hd => hall d (List.mem_cons_of_mem _ hd))]
      rfl
  show String.mk ((s.data.flatMap String.utf8EncodeChar).flatMap url.escapeByte) = s
  rw [hl s.data h]

/-- C8, as stated, fails for an identifier with a byte that
`url.QueryEscape` rewrites: for the identifier `AB CD` the path set is
`/v1/devices/AB+CD/block`, which is not `/v1/devices/` followed by the
identifier followed by `/block`. -/
theorem encodeBlockDeviceRequest_rewrites_udid :
    (encodeBlockDeviceRequest sample.request { UDID := "AB CD" }).1.Path =
      "/v1/devices/AB+CD/block" ∧
    (encodeBlockDeviceRequest sample.request { UDID := "AB CD" }).1.Path ≠
      "/v1/devices/" ++ "AB CD" ++ "/block" := by
  decide

/-- C8, amended: `encodeBlockDeviceRequest` returns no error, sets the
method to `POST` and the path to `/v1/devices/` followed by
`url.QueryEscape` of the identifier followed by `/block`; the escaped
identifier is the identifier itself when it is made of ASCII letters,
digits, `-`, `_`, `.` and `~` only. -/
theorem encodeBlockDeviceRequest_route (r : http.Request) (req : blockDeviceRequest) :
    encodeBlockDeviceRequest r req =
      ({ r with Method := "POST",
                Path := "/v1/devices/" ++ url.QueryEscape req.UDID ++ "/block" }, none) ∧
    ((∀ c ∈ req.UDID.data, url.unreserved c = true) →
      (encodeBlockDeviceRequest r req).1.Method = "POST" ∧
      (encodeBlockDeviceRequest r req).1.Path = "/v1/devices/" ++ req.UDID ++ "/block") := by
  refine ⟨rfl, ?_⟩
  intro h
  refine ⟨rfl, ?_⟩
  show "/v1/devices/" ++ url.QueryEscape req.UDID ++ "/block" = _
  rw [url.QueryEscape_unreserved req.UDID h]

theorem encodeBlockDeviceRequest_route_witness :
    (∀ c ∈ "00008020-001C2D2A3C88002E".data, url.unreserved c = true) ∧
    (encodeBlockDeviceRequest sample.request { UDID := "00008020-001C2D2A3C88002E" }).1.Path =
      "/v1/devices/" ++ "00008020-001C2D2A3C88002E" ++ "/block" :=
  ⟨by decide,
   ((encodeBlockDeviceRequest_route sample.request
      { UDID := "00008020-001C2D2A3C88002E" }).2 (by decide)).2⟩

theorem lookup_append_of_none {α β : Type} [BEq α] (k : α) :
    ∀ (l1 l2 : List (α × β)), l1.lookup k = none → (l1 ++ l2).lookup k = l2.lookup k := by
  intro l1
  induction l1 with
  | nil => intro l2 _; rfl
  | cons p rest ih =>
    intro l2 h
    obtain ⟨a, b⟩ := p
    simp only [List.cons_append, List.lookup_cons] at h ⊢
    cases hk : (k == a) with
    | true => simp [hk] at h
    | false =>
      simp only [hk] at h ⊢
      exact ih l2 h

/-- C10, as stated, fails when the URL of the outgoing request has a
query parameter named as one of the form fields: `FormValue` reads the
query before the multipart body, so the package name `munki.pkg` written
by the encoder is decoded as the `other.pkg` of the query. -/
theorem decodeAppUploadRequest_prefers_query :
    EncodeUploadAppRequest "b0" { sample.request with Query := [("pkg_name", "other.pkg")] }
        { ManifestName := "", ManifestFile := none, PKGFilename := "munki.pkg",
          PKGFile := some { data := [1, 2, 3], err := none } } =
      some ({ sample.request with
                Query := [("pkg_name", "other.pkg")],
                ContentType := some (multipart.FormDataContentType "b0"),
                Body := http.Body.multipart "b0"
                  [multipart.Part.file "pkg_filedata" "munki.pkg" [1, 2, 3],
                   multipart.Part.field "pkg_name" "munki.pkg"] }, none) ∧
    decodeAppUploadRequest
        { sample.request with
            Query := [("pkg_name", "other.pkg")],
            ContentType := some (multipart.FormDataContentType "b0"),
            Body := http.Body.multipart "b0"
              [multipart.Part.file "pkg_filedata" "munki.pkg" [1, 2, 3],
               multipart.Part.field "pkg_name" "munki.pkg"] } =
      (Value.appUploadRequest
        { ManifestName := "", ManifestFile := none, PKGFilename := "other.pkg",
          PKGFile := some { data := [1, 2, 3], err := none } }, none) := by
  decide

/-- C10, amended: when each name that is not empty comes with a file
that reads to its end, and the URL query of the outgoing request has no
parameter named `app_manifest_filename` or `pkg_name`, the encoder returns
no error, and the decoder applied to the request it produced returns no
error and an upload request with the same manifest name and the same
package name, whose files hold the bytes of the originals where the name
is not empty and are absent where the name is empty. -/
theorem appUpload_round_trip (boundary : String) (r : http.Request) (req : appUploadRequest)
    (hM : req.ManifestName ≠ "" → ∃ data, req.ManifestFile = some { data := data, err := none })
    (hP : req.PKGFilename ≠ "" → ∃ data, req.PKGFile = some { data := data, err := none })
    (hQ : r.Query.lookup "app_manifest_filename" = none ∧ r.Query.lookup "pkg_name" = none) :
    ∃ r1, EncodeUploadAppRequest boundary r req = some (r1, none) ∧
      decodeAppUploadRequest r1 =
        (Value.appUploadRequest
          { ManifestName := req.ManifestName,
            ManifestFile := if req.ManifestName = "" then none else req.ManifestFile,
            PKGFilename := req.PKGFilename,
            PKGFile := if req.PKGFilename = "" then none else req.PKGFile }, none) := by
  obtain ⟨hQ1, hQ2⟩ := hQ
  have l1 := fun l2 => lookup_append_of_none "app_manifest_filename" r.Query l2 hQ1
  have l2 := fun l2 => lookup_append_of_none "pkg_name" r.Query l2 hQ2
  by_cases hm : req.ManifestName = ""
  · by_cases hp : req.PKGFilename = ""
    · clear hM hP
      have henc : EncodeUploadAppRequest boundary r req =
          some ({ r with
                    ContentType := some (multipart.FormDataContentType boundary),
                    Body := http.Body.multipart boundary
                      [] }, none) := by
        simp [EncodeUploadAppRequest, EncodeUploadAppRequest.block, hm, hp, io.Copy]
      refine ⟨_, henc, ?_⟩
      simp [decodeAppUploadRequest, http.Request.FormValue, http.Request.FormFile,
        http.Request.ParseMultipartForm, multipart.ReadForm, multipart.FormDataContentType,
        http.ErrMissingFile, hm, hp, List.lookup, hQ1, hQ2]
    · obtain ⟨e, he⟩ := hP hp
      have henc : EncodeUploadAppRequest boundary r req =
          some ({ r with
                    ContentType := some (multipart.FormDataContentType boundary),
                    Body := http.Body.multipart boundary
                      [multipart.Part.file "pkg_filedata" req.PKGFilename e,
                       multipart.Part.field "pkg_name" req.PKGFilename] }, none) := by
        simp [EncodeUploadAppRequest, EncodeUploadAppRequest.block, hm, hp, io.Copy, he]
      refine ⟨_, henc, ?_⟩
      simp [decodeAppUploadRequest, http.Request.FormValue, http.Request.FormFile,
        http.Request.ParseMultipartForm, multipart.ReadForm, multipart.FormDataContentType,
        http.ErrMissingFile, hm, hp, List.lookup, he, hQ1, hQ2, l1, l2]
  · obtain ⟨d, hd⟩ := hM hm
    by_cases hp : req.PKGFilename = ""
    · clear hP
      have henc : EncodeUploadAppRequest boundary r req =
          some ({ r with
                    ContentType := some (multipart.FormDataContentType boundary),
                    Body := http.Body.multipart boundary
                      [multipart.Part.file "app_manifest_filedata" req.ManifestName d,
                       multipart.Part.field "app_manifest_filename" req.ManifestName] }, none) := by
        simp [EncodeUploadAppRequest, EncodeUploadAppRequest.block, hm, hp, io.Copy, hd]
      refine ⟨_, henc, ?_⟩
      simp [decodeAppUploadRequest, http.Request.FormValue, http.Request.FormFile,
        http.Request.ParseMultipartForm, multipart.ReadForm, multipart.FormDataContentType,
        http.ErrMissingFile, hm, hp, List.lookup, hd, hQ1, hQ2, l1, l2]
    · obtain ⟨e, he⟩ := hP hp
      have henc : EncodeUploadAppRequest boundary r req =
          some ({ r with
                    ContentType := some (multipart.FormDataContentType boundary),
                    Body := http.Body.multipart boundary
                      [multipart.Part.file "app_manifest_filedata" req.ManifestName d,
                       multipart.Part.field "app_manifest_filename" req.ManifestName,
                       multipart.Part.file "pkg_filedata" req.PKGFilename e,
                       multipart.Part.field "pkg_name" req.PKGFilename] }, none) := by
        simp [EncodeUploadAppRequest, EncodeUploadAppRequest.block, hm, hp, io.Copy, hd, he]
      refine ⟨_, henc, ?_⟩
      simp [decodeAppUploadRequest, http.Request.FormValue, http.Request.FormFile,
        http.Request.ParseMultipartForm, multipart.ReadForm, multipart.FormDataContentType,
        http.ErrMissingFile, hm, hp, List.lookup, hd, he, hQ1, hQ2, l1, l2]

theorem appUpload_round_trip_witness :
    ∃ r1, EncodeUploadAppRequest "b0" sample.request
        { ManifestName := "munki.plist",
          ManifestFile := some { data := [60, 63], err := none },
          PKGFilename := "munki.pkg",
          PKGFile := some { data := [1, 2, 3], err := none } } = some (r1, none) ∧
      decodeAppUploadRequest r1 =
        (Value.appUploadRequest
          { ManifestName := "munki.plist",
            ManifestFile := if "munki.plist" = "" then none
              else some { data := [60, 63], err := none },
            PKGFilename := "munki.pkg",
            PKGFile := if "munki.pkg" = "" then none
              else some { data := [1, 2, 3], err := none } }, none) :=
  appUpload_round_trip "b0" sample.request
    { ManifestName := "munki.plist",
      ManifestFile := some { data := [60, 63], err := none },
      PKGFilename := "munki.pkg",
      PKGFile := some { data := [1, 2, 3], err := none } }
    (fun _ => ⟨[60, 63], rfl⟩) (fun _ => ⟨[1, 2, 3], rfl⟩) ⟨rfl, rfl⟩

end Micromdm
